import Mathlib

/-!
Verification of the Windows container CPU-affinity resolver
(`pkg/kubelet/cm/internal_container_lifecycle_windows.go`).

The development embeds the affinity-resolution core: the representation
converter between flat CPU-index sets and (group, 64-bit mask) pairs, and
the reconciliation policy of `PreCreateContainer`.  Go maps `map[int]struct{}`
are embedded as `Finset ℕ`, `cpuset.CPUSet` as `Finset ℕ`, the fallible
external NUMA lookup as a function into `Except`, and the in-place mutation
of the container config as explicit state passing.
-/

namespace WinAffinity

/-- GROUP_AFFINITY mirrors `winstats.GROUP_AFFINITY`: a processor-group index
(`Group`, uint16 in Go) and a 64-bit affinity mask (`Mask`, uint64 in Go).
The never-read `Reserved` padding field is omitted. -/
structure GROUP_AFFINITY where
  group : ℕ
  mask : ℕ
  deriving DecidableEq, Repr

/-- Modelled from the spec: `winstats.GROUP_AFFINITY.Processors` is not under
src (only its callers are).  Per §4.1 "flatten": for every bit position 0..63
set in `mask`, emit `group*64 + bit`. -/
def GROUP_AFFINITY.processors (a : GROUP_AFFINITY) : List ℕ :=
  ((List.range 64).filter (fun b => a.mask.testBit b)).map (fun b => a.group * 64 + b)

/-- computeCPUSet returns the set of CPU IDs covered by the provided group
affinities (Go builds a `map[int]struct{}` by inserting every processor of
every affinity). -/
def computeCPUSet (affinities : List GROUP_AFFINITY) : Finset ℕ :=
  affinities.foldl (fun cpuSet a => cpuSet ∪ a.processors.toFinset) ∅

/-- subset returns true if set1 is a subset of set2 (Go iterates set1 and
tests membership in set2). -/
def subset (set1 set2 : Finset ℕ) : Bool :=
  decide (∀ k ∈ set1, k ∈ set2)

/-- mergeSets combines two sets of CPU IDs (Go inserts the keys of both maps
into a fresh map). -/
def mergeSets (set1 set2 : Finset ℕ) : Finset ℕ :=
  set1 ∪ set2

/-- convertToGroupAffinities converts a flat CPU set to one single-bit
GROUP_AFFINITY per CPU, iterating the set in ascending order
(`cpuset.CPUSet.List` returns a sorted slice). -/
def convertToGroupAffinities (cpuSet : Finset ℕ) : List GROUP_AFFINITY :=
  (cpuSet.sort (· ≤ ·)).map (fun cpu => { group := cpu / 64, mask := 1 <<< (cpu % 64) })

instance : Std.Commutative (fun a b : ℕ => a ||| b) := ⟨Nat.lor_comm⟩

instance : Std.Associative (fun a b : ℕ => a ||| b) := ⟨Nat.lor_assoc⟩

/-- groupMasks converts a set of CPU IDs into the group→mask map: the value
at group `g` is the OR of `1 << (cpu % 64)` over the set's CPUs with
`cpu / 64 = g`.  A Go map lookup of an absent group yields 0, so the map is
embedded as the total function with 0 standing for "no entry". -/
def groupMasks (cpuSet : Finset ℕ) (g : ℕ) : ℕ :=
  cpuSet.fold (fun a b => a ||| b) 0 (fun cpu => if cpu / 64 = g then 1 <<< (cpu % 64) else 0)

/-- groupMaskPairs is the set of (group, mask) entries of the `groupMasks`
map, i.e. one pair per group holding at least one CPU of the set: exactly
the pairs the Go `for group, mask := range groupMasks(...)` loop visits. -/
def groupMaskPairs (cpuSet : Finset ℕ) : Finset (ℕ × ℕ) :=
  (cpuSet.image (fun cpu => cpu / 64)).image (fun g => (g, groupMasks cpuSet g))

/-- groupMaskAffinities serializes the `groupMasks` map of a flat CPU set as
GROUP_AFFINITY entries in ascending group order — the "group-encode"
direction of the converter, one entry per non-empty group. -/
def groupMaskAffinities (cpuSet : Finset ℕ) : List GROUP_AFFINITY :=
  ((cpuSet.image (fun cpu => cpu / 64)).sort (· ≤ ·)).map
    (fun g => { group := g, mask := groupMasks cpuSet g })

/-- NumaError is the error built by
`fmt.Errorf("failed to get CPUs for NUMA node %d: %v", numaNode, err)`:
it records the offending node and the underlying host-query error. -/
structure NumaError where
  node : ℕ
  msg : String
  deriving DecidableEq, Repr

/-- expandNumaNodes is the Go loop gathering the GROUP_AFFINITY of every NUMA
node in order, returning the wrapped error of the first failing lookup. -/
def expandNumaNodes (lookup : ℕ → Except String GROUP_AFFINITY) :
    List ℕ → Except NumaError (List GROUP_AFFINITY)
  | [] => .ok []
  | n :: ns =>
    match lookup n with
    | .error e => .error ⟨n, e⟩
    | .ok affinity =>
      match expandNumaNodes lookup ns with
      | .error e => .error e
      | .ok rest => .ok (affinity :: rest)

/-- issuedLookups records which NUMA nodes the Go loop actually passes to
`winstats.GetCPUsforNUMANode`: every node up to and including the first one
whose lookup fails. -/
def issuedLookups (lookup : ℕ → Except String GROUP_AFFINITY) : List ℕ → List ℕ
  | [] => []
  | n :: ns =>
    match lookup n with
    | .error _ => [n]
    | .ok _ => n :: issuedLookups lookup ns

/-- ContainerConfig embeds the one field of the runtime config this code
touches: `containerConfig.Windows.Resources.AffinityCpus`.  `none` means the
field was never assigned. -/
structure ContainerConfig where
  affinityCpus : Option (Finset (ℕ × ℕ))
  deriving DecidableEq

/-- resolveFinalCPUSet is the precedence chain of `PreCreateContainer`
(cases 1–3 of the KEP): prefer the CPU manager's set when it is strictly
larger than the NUMA-derived set or contained in it, otherwise merge. -/
def resolveFinalCPUSet (cpuManagerAffinityCPUSet numaNodeAffinityCPUSet : Finset ℕ) : Finset ℕ :=
  if cpuManagerAffinityCPUSet.card > numaNodeAffinityCPUSet.card then
    cpuManagerAffinityCPUSet
  else if subset cpuManagerAffinityCPUSet numaNodeAffinityCPUSet then
    cpuManagerAffinityCPUSet
  else
    mergeSets cpuManagerAffinityCPUSet numaNodeAffinityCPUSet

/-- preCreateContainer embeds `PreCreateContainer`.  A manager being `none`
is a nil manager; `cpuManager.getD ∅` is `allocatedCPUs` (the zero-value
CPUSet when the CPU manager is nil), `memoryManager.getD ∅` is `numaNodes`.
The external `winstats.GetCPUsforNUMANode` is the `lookup` argument.  The
result pairs the returned error value with the final state of the container
config (Go mutates the config in place). -/
def preCreateContainer (featureGateEnabled : Bool)
    (cpuManager memoryManager : Option (Finset ℕ))
    (lookup : ℕ → Except String GROUP_AFFINITY)
    (containerConfig : ContainerConfig) :
    Except NumaError Unit × ContainerConfig :=
  if !featureGateEnabled then
    (.ok (), containerConfig)
  else
    let allocatedCPUs := cpuManager.getD ∅
    let numaNodes := memoryManager.getD ∅
    let finalCPUSetE : Except NumaError (Option (Finset ℕ)) :=
      if cpuManager.isSome ∧ allocatedCPUs ≠ ∅ ∧ memoryManager.isSome ∧ 0 < numaNodes.card then
        match expandNumaNodes lookup (numaNodes.sort (· ≤ ·)) with
        | .error e => .error e
        | .ok allNumaNodeCPUs =>
          let cpuManagerAffinityCPUSet := computeCPUSet (convertToGroupAffinities allocatedCPUs)
          let numaNodeAffinityCPUSet := computeCPUSet allNumaNodeCPUs
          .ok (some (resolveFinalCPUSet cpuManagerAffinityCPUSet numaNodeAffinityCPUSet))
      else if cpuManager.isSome ∧ allocatedCPUs ≠ ∅ then
        .ok (some (computeCPUSet (convertToGroupAffinities allocatedCPUs)))
      else if memoryManager.isSome ∧ allocatedCPUs ≠ ∅ then
        match expandNumaNodes lookup (numaNodes.sort (· ≤ ·)) with
        | .error e => .error e
        | .ok allNumaNodeCPUs => .ok (some (computeCPUSet allNumaNodeCPUs))
      else
        .ok none
    match finalCPUSetE with
    | .error e => (.error e, containerConfig)
    | .ok none => (.ok (), containerConfig)
    | .ok (some finalCPUSet) =>
      (.ok (), { containerConfig with affinityCpus := some (groupMaskPairs finalCPUSet) })

/-- preCreateLookups mirrors the control flow of `preCreateContainer` and
returns the list of NUMA nodes actually passed to the external lookup during
the call. -/
def preCreateLookups (featureGateEnabled : Bool)
    (cpuManager memoryManager : Option (Finset ℕ))
    (lookup : ℕ → Except String GROUP_AFFINITY) : List ℕ :=
  if !featureGateEnabled then
    []
  else
    let allocatedCPUs := cpuManager.getD ∅
    let numaNodes := memoryManager.getD ∅
    if cpuManager.isSome ∧ allocatedCPUs ≠ ∅ ∧ memoryManager.isSome ∧ 0 < numaNodes.card then
      issuedLookups lookup (numaNodes.sort (· ≤ ·))
    else if cpuManager.isSome ∧ allocatedCPUs ≠ ∅ then
      []
    else if memoryManager.isSome ∧ allocatedCPUs ≠ ∅ then
      issuedLookups lookup (numaNodes.sort (· ≤ ·))
    else
      []

/-- sort_eq_of_sorted lets concrete `Finset.sort` values be computed: the
ascending enumeration of a finite set of naturals is the unique sorted
duplicate-free list with the same members. -/
theorem sort_eq_of_sorted (s : Finset ℕ) (l : List ℕ) (hs : List.Sorted (· ≤ ·) l)
    (hn : l.Nodup) (hm : l.toFinset = s) : s.sort (· ≤ ·) = l := by
  refine List.eq_of_perm_of_sorted ?_ (Finset.sort_sorted _ _) hs
  refine (List.perm_ext_iff_of_nodup (Finset.sort_nodup _ _) hn).mpr ?_
  intro x
  rw [Finset.mem_sort, ← hm, List.mem_toFinset]

/-- mem_processors characterizes the flatten direction: a CPU is listed by a
GROUP_AFFINITY exactly when it is `group*64 + b` for some set bit `b < 64`. -/
theorem mem_processors {a : GROUP_AFFINITY} {c : ℕ} :
    c ∈ a.processors ↔ ∃ b, b < 64 ∧ a.mask.testBit b = true ∧ c = a.group * 64 + b := by
  simp only [GROUP_AFFINITY.processors, List.mem_map, List.mem_filter, List.mem_range]
  constructor
  · rintro ⟨b, ⟨hb, ht⟩, rfl⟩
    exact ⟨b, hb, ht, rfl⟩
  · rintro ⟨b, hb, ht, rfl⟩
    exact ⟨b, ⟨hb, ht⟩, rfl⟩

theorem foldl_union_mem (L : List GROUP_AFFINITY) (init : Finset ℕ) (c : ℕ) :
    c ∈ L.foldl (fun cpuSet a => cpuSet ∪ a.processors.toFinset) init ↔
      c ∈ init ∨ ∃ a ∈ L, c ∈ a.processors := by
  induction L generalizing init with
  | nil => simp
  | cons a L ih =>
    simp only [List.foldl_cons, ih, Finset.mem_union, List.mem_toFinset, List.mem_cons]
    constructor
    · rintro ((h | h) | ⟨a', ha', h⟩)
      · exact Or.inl h
      · exact Or.inr ⟨a, Or.inl rfl, h⟩
      · exact Or.inr ⟨a', Or.inr ha', h⟩
    · rintro (h | ⟨a', (rfl | ha'), h⟩)
      · exact Or.inl (Or.inl h)
      · exact Or.inl (Or.inr h)
      · exact Or.inr ⟨a', ha', h⟩

/-- mem_computeCPUSet: membership in the flattened set is membership in some
input affinity's processor list. -/
theorem mem_computeCPUSet {L : List GROUP_AFFINITY} {c : ℕ} :
    c ∈ computeCPUSet L ↔ ∃ a ∈ L, c ∈ a.processors := by
  simpa using foldl_union_mem L ∅ c

/-- testBit_groupMasks: bit `b` of the accumulated mask of group `g` is set
exactly when `b < 64` and CPU `g*64 + b` is in the set. -/
theorem testBit_groupMasks {S : Finset ℕ} {g b : ℕ} :
    (groupMasks S g).testBit b = true ↔ b < 64 ∧ g * 64 + b ∈ S := by
  induction S using Finset.induction_on with
  | empty => simp [groupMasks]
  | @insert a s ha ih =>
    simp only [groupMasks] at ih ⊢
    rw [Finset.fold_insert ha, Nat.testBit_lor, Bool.or_eq_true, ih, Finset.mem_insert]
    by_cases hg : a / 64 = g
    · rw [if_pos hg, Nat.shiftLeft_eq, one_mul, Nat.testBit_two_pow]
      subst hg
      constructor
      · rintro (h | ⟨hb, hmem⟩)
        · have hb : a % 64 = b := of_decide_eq_true h
          exact ⟨by omega, Or.inl (by omega)⟩
        · exact ⟨hb, Or.inr hmem⟩
      · rintro ⟨hb, (heq | hmem)⟩
        · exact Or.inl (decide_eq_true (by omega))
        · exact Or.inr ⟨hb, hmem⟩
    · rw [if_neg hg]
      simp only [Nat.zero_testBit, Bool.false_eq_true, false_or]
      constructor
      · rintro ⟨hb, hmem⟩
        exact ⟨hb, Or.inr hmem⟩
      · rintro ⟨hb, (heq | hmem)⟩
        · exact absurd (by omega : a / 64 = g) hg
        · exact ⟨hb, hmem⟩

theorem lor_lt_two_pow {a b n : ℕ} (ha : a < 2 ^ n) (hb : b < 2 ^ n) : a ||| b < 2 ^ n :=
  Nat.bitwise_lt_two_pow ha hb

/-- groupMasks_lt_two_pow: every accumulated group mask fits in 64 bits. -/
theorem groupMasks_lt_two_pow (S : Finset ℕ) (g : ℕ) : groupMasks S g < 2 ^ 64 := by
  induction S using Finset.induction_on with
  | empty =>
    rw [groupMasks, Finset.fold_empty]
    exact Nat.two_pow_pos 64
  | @insert a s ha ih =>
    rw [groupMasks, Finset.fold_insert ha]
    refine lor_lt_two_pow ?_ ih
    by_cases hg : a / 64 = g
    · rw [if_pos hg, Nat.shiftLeft_eq, one_mul]
      exact Nat.pow_lt_pow_right (by norm_num) (Nat.mod_lt _ (by norm_num))
    · rw [if_neg hg]
      exact Nat.two_pow_pos 64

/-- mem_groupMaskAffinities: the serialized group-encode entries are exactly
the pairs (g, groupMasks S g) for the groups populated by S. -/
theorem mem_groupMaskAffinities {S : Finset ℕ} {a : GROUP_AFFINITY} :
    a ∈ groupMaskAffinities S ↔
      ∃ g ∈ S.image (fun cpu => cpu / 64), a = ⟨g, groupMasks S g⟩ := by
  simp only [groupMaskAffinities, List.mem_map, Finset.mem_sort]
  constructor
  · rintro ⟨g, hg, rfl⟩
    exact ⟨g, hg, rfl⟩
  · rintro ⟨g, hg, rfl⟩
    exact ⟨g, hg, rfl⟩

theorem flatten_groupEncode (S : Finset ℕ) :
    computeCPUSet (groupMaskAffinities S) = S := by
  ext c
  rw [mem_computeCPUSet]
  constructor
  · rintro ⟨a, haL, hc⟩
    obtain ⟨g, hg, rfl⟩ := mem_groupMaskAffinities.mp haL
    rw [mem_processors] at hc
    obtain ⟨b, hb, ht, rfl⟩ := hc
    exact (testBit_groupMasks.mp ht).2
  · intro hc
    refine ⟨⟨c / 64, groupMasks S (c / 64)⟩, ?_, ?_⟩
    · exact mem_groupMaskAffinities.mpr ⟨c / 64, Finset.mem_image_of_mem _ hc, rfl⟩
    · rw [mem_processors]
      have hdm : c / 64 * 64 + c % 64 = c := by omega
      exact ⟨c % 64, by omega,
        testBit_groupMasks.mpr ⟨by omega, by rw [hdm]; exact hc⟩,
        by show c = c / 64 * 64 + c % 64; omega⟩

theorem testBit_eq_false_of_ge {m b : ℕ} (hm : m < 2 ^ 64) (hb : 64 ≤ b) :
    m.testBit b = false :=
  Nat.testBit_eq_false_of_lt (lt_of_lt_of_le hm (Nat.pow_le_pow_right (by norm_num) hb))

theorem groupEncode_flatten (L : List GROUP_AFFINITY)
    (hnd : (L.map GROUP_AFFINITY.group).Nodup)
    (hmask : ∀ a ∈ L, a.mask < 2 ^ 64) :
    (∀ a ∈ L, groupMasks (computeCPUSet L) a.group = a.mask) ∧
    (∀ g, g ∉ L.map GROUP_AFFINITY.group → groupMasks (computeCPUSet L) g = 0) := by
  have hbit : ∀ g b, (groupMasks (computeCPUSet L) g).testBit b = true ↔
      ∃ a ∈ L, a.group = g ∧ b < 64 ∧ a.mask.testBit b = true := by
    intro g b
    rw [testBit_groupMasks]
    constructor
    · rintro ⟨hb, hmem⟩
      rw [mem_computeCPUSet] at hmem
      obtain ⟨a, haL, hc⟩ := hmem
      rw [mem_processors] at hc
      obtain ⟨b', hb', ht', heq⟩ := hc
      have hgb : a.group = g ∧ b' = b := by omega
      exact ⟨a, haL, hgb.1, hb, hgb.2 ▸ ht'⟩
    · rintro ⟨a, haL, rfl, hb, ht⟩
      refine ⟨hb, ?_⟩
      rw [mem_computeCPUSet]
      exact ⟨a, haL, mem_processors.mpr ⟨b, hb, ht, rfl⟩⟩
  constructor
  · intro a haL
    refine Nat.eq_of_testBit_eq fun b => ?_
    by_cases hb64 : b < 64
    · rcases htb : a.mask.testBit b with _ | _
      · rcases htg : (groupMasks (computeCPUSet L) a.group).testBit b with _ | _
        · rfl
        · obtain ⟨a', ha'L, hgg, _, ht'⟩ := (hbit a.group b).mp htg
          have : a' = a := List.inj_on_of_nodup_map hnd ha'L haL hgg
          rw [this, htb] at ht'
          exact ht'.symm
      · exact (hbit a.group b).mpr ⟨a, haL, rfl, hb64, htb⟩
    · rw [testBit_eq_false_of_ge (groupMasks_lt_two_pow _ _) (by omega),
        testBit_eq_false_of_ge (hmask a haL) (by omega)]
  · intro g hg
    refine Nat.eq_of_testBit_eq fun b => ?_
    rw [Nat.zero_testBit]
    rcases htg : (groupMasks (computeCPUSet L) g).testBit b with _ | _
    · rfl
    · obtain ⟨a, haL, rfl, _, _⟩ := (hbit g b).mp htg
      exact absurd (List.mem_map_of_mem _ haL) hg

/-- C6: flatten ∘ group-encode is the identity on flat CPU sets, and
group-encode ∘ flatten reproduces the group→mask mapping of any affinity
list with pairwise distinct groups (absent groups map to 0, the value a Go
map lookup reports for a missing entry). -/
theorem C6_roundtrip :
    (∀ S : Finset ℕ, computeCPUSet (groupMaskAffinities S) = S) ∧
    (∀ L : List GROUP_AFFINITY, (L.map GROUP_AFFINITY.group).Nodup →
      (∀ a ∈ L, a.mask < 2 ^ 64) →
      (∀ a ∈ L, groupMasks (computeCPUSet L) a.group = a.mask) ∧
      (∀ g, g ∉ L.map GROUP_AFFINITY.group → groupMasks (computeCPUSet L) g = 0)) :=
  ⟨flatten_groupEncode, groupEncode_flatten⟩

/-- C6 witness: the round trip at the concrete set {1, 3, 64, 67} and the
concrete affinity list [(group 0, mask 0b1010), (group 1, mask 0b1001)]. -/
theorem C6_roundtrip_witness :
    computeCPUSet (groupMaskAffinities {1, 3, 64, 67}) = {1, 3, 64, 67} ∧
    groupMasks (computeCPUSet [⟨0, 10⟩, ⟨1, 9⟩]) 0 = 10 ∧
    groupMasks (computeCPUSet [⟨0, 10⟩, ⟨1, 9⟩]) 1 = 9 ∧
    groupMasks (computeCPUSet [⟨0, 10⟩, ⟨1, 9⟩]) 2 = 0 := by
  refine ⟨C6_roundtrip.1 {1, 3, 64, 67}, ?_, ?_, ?_⟩
  · exact (C6_roundtrip.2 [⟨0, 10⟩, ⟨1, 9⟩] (by decide) (by decide)).1 ⟨0, 10⟩ (by decide)
  · exact (C6_roundtrip.2 [⟨0, 10⟩, ⟨1, 9⟩] (by decide) (by decide)).1 ⟨1, 9⟩ (by decide)
  · exact (C6_roundtrip.2 [⟨0, 10⟩, ⟨1, 9⟩] (by decide) (by decide)).2 2 (by decide)

/-- C7: CPU index `c` encodes to the single-bit pair (group c/64, mask
1 <<< (c%64)), and an affinity with mask `1 <<< k` at group `g` flattens to
exactly the singleton {g*64 + k}. -/
theorem C7_bit_correctness (c g k : ℕ) (hk : k < 64) :
    convertToGroupAffinities {c} = [⟨c / 64, 1 <<< (c % 64)⟩] ∧
    computeCPUSet [⟨g, 1 <<< k⟩] = {g * 64 + k} := by
  constructor
  · rw [convertToGroupAffinities, Finset.sort_singleton, List.map_cons, List.map_nil]
  · ext x
    rw [mem_computeCPUSet, Finset.mem_singleton]
    constructor
    · rintro ⟨a, ha, hx⟩
      rw [List.mem_singleton] at ha
      subst ha
      rw [mem_processors] at hx
      obtain ⟨b, hb, ht, rfl⟩ := hx
      rw [Nat.shiftLeft_eq, one_mul, Nat.testBit_two_pow] at ht
      have hkb : k = b := of_decide_eq_true ht
      subst hkb
      rfl
    · rintro rfl
      refine ⟨⟨g, 1 <<< k⟩, List.mem_singleton_self _,
        mem_processors.mpr ⟨k, hk, ?_, rfl⟩⟩
      rw [Nat.shiftLeft_eq, one_mul]
      exact Nat.testBit_two_pow_self

/-- C7 witness: CPU 65 encodes to (group 1, mask 2), and that affinity
flattens back to {65}. -/
theorem C7_bit_correctness_witness :
    convertToGroupAffinities {65} = [⟨1, 2⟩] ∧ computeCPUSet [⟨1, 2⟩] = {65} := by
  have h := C7_bit_correctness 65 1 1 (by decide)
  exact ⟨h.1, h.2⟩

/-- C8: every mask produced by the converter (per-CPU entries of
convertToGroupAffinities, accumulated masks of groupMasks) has no bit set at
or above position 64, and a CPU `c` of the set corresponds to exactly the
one pair (group, bit) = (c/64, c%64) among the set bits of the group
masks. -/
theorem C8_mask_invariant (S : Finset ℕ) :
    (∀ a ∈ convertToGroupAffinities S, a.mask < 2 ^ 64) ∧
    (∀ g, groupMasks S g < 2 ^ 64) ∧
    (∀ c ∈ S, ∀ g b, b < 64 →
      (((groupMasks S g).testBit b = true ∧ g * 64 + b = c) ↔
        (g = c / 64 ∧ b = c % 64))) := by
  refine ⟨?_, fun g => groupMasks_lt_two_pow S g, ?_⟩
  · intro a ha
    rw [convertToGroupAffinities] at ha
    obtain ⟨cpu, _, rfl⟩ := List.mem_map.mp ha
    show 1 <<< (cpu % 64) < 2 ^ 64
    rw [Nat.shiftLeft_eq, one_mul]
    exact Nat.pow_lt_pow_right (by norm_num) (by omega)
  · intro c hc g b hb
    constructor
    · rintro ⟨ht, heq⟩
      exact ⟨by omega, by omega⟩
    · rintro ⟨rfl, rfl⟩
      have hdm : c / 64 * 64 + c % 64 = c := by omega
      exact ⟨testBit_groupMasks.mpr ⟨by omega, by rw [hdm]; exact hc⟩, hdm⟩

/-- C8 witness: the invariant at the concrete set {65} with CPU 65,
group 1, bit 1. -/
theorem C8_mask_invariant_witness :
    (⟨1, 2⟩ : GROUP_AFFINITY).mask < 2 ^ 64 ∧
    groupMasks {65} 1 < 2 ^ 64 ∧
    (((groupMasks {65} 1).testBit 1 = true ∧ 1 * 64 + 1 = 65) ↔
      (1 = 65 / 64 ∧ 1 = 65 % 64)) := by
  have h := C8_mask_invariant {65}
  have hmem : (⟨1, 2⟩ : GROUP_AFFINITY) ∈ convertToGroupAffinities {65} := by
    rw [convertToGroupAffinities, Finset.sort_singleton]
    exact List.mem_singleton_self _
  exact ⟨h.1 _ hmem, h.2.1 1, h.2.2 65 (Finset.mem_singleton_self 65) 1 1 (by decide)⟩

theorem subset_eq_true_iff {set1 set2 : Finset ℕ} :
    subset set1 set2 = true ↔ set1 ⊆ set2 := by
  rw [subset, decide_eq_true_iff]
  exact Iff.symm Finset.subset_iff

/-- C2: when the CPU manager's flattened set is contained in the NUMA-derived
set and no larger, the resolver picks exactly the CPU manager's set. -/
theorem C2_subset_policy (cpuSet numaSet : Finset ℕ) (hc : cpuSet ≠ ∅) (hn : numaSet ≠ ∅)
    (hsub : cpuSet ⊆ numaSet) (hcard : cpuSet.card ≤ numaSet.card) :
    resolveFinalCPUSet cpuSet numaSet = cpuSet := by
  rw [resolveFinalCPUSet, if_neg (by omega), if_pos (subset_eq_true_iff.mpr hsub)]

/-- C2 witness: {1} against {1, 2}. -/
theorem C2_subset_policy_witness : resolveFinalCPUSet {1} {1, 2} = {1} :=
  C2_subset_policy {1} {1, 2} (by decide) (by decide) (by decide) (by decide)

/-- C3: when the CPU manager's flattened set is strictly larger than the
NUMA-derived set, the resolver picks exactly the CPU manager's set,
regardless of overlap. -/
theorem C3_superset_policy (cpuSet numaSet : Finset ℕ) (hc : cpuSet ≠ ∅) (hn : numaSet ≠ ∅)
    (hcard : numaSet.card < cpuSet.card) :
    resolveFinalCPUSet cpuSet numaSet = cpuSet := by
  rw [resolveFinalCPUSet, if_pos (by omega)]

/-- C3 witness: {1, 2, 3} against the disjoint smaller set {9}. -/
theorem C3_superset_policy_witness : resolveFinalCPUSet {1, 2, 3} {9} = {1, 2, 3} :=
  C3_superset_policy {1, 2, 3} {9} (by decide) (by decide) (by decide)

/-- C4: when the CPU manager's flattened set is non-empty, not larger than
the NUMA-derived set and not a subset of it, the resolver picks exactly
their union. -/
theorem C4_merge_policy (cpuSet numaSet : Finset ℕ) (hc : cpuSet ≠ ∅) (hn : numaSet ≠ ∅)
    (hcard : ¬ numaSet.card < cpuSet.card) (hsub : ¬ cpuSet ⊆ numaSet) :
    resolveFinalCPUSet cpuSet numaSet = cpuSet ∪ numaSet := by
  rw [resolveFinalCPUSet, if_neg (by omega),
    if_neg (fun h => hsub (subset_eq_true_iff.mp h))]
  rfl

/-- C4 witness: {5} against {1, 2} (partial overlap is absent entirely). -/
theorem C4_merge_policy_witness : resolveFinalCPUSet {5} {1, 2} = {5} ∪ {1, 2} :=
  C4_merge_policy {5} {1, 2} (by decide) (by decide) (by decide) (by decide)

theorem expandNumaNodes_error (lookup : ℕ → Except String GROUP_AFFINITY)
    (pre : List ℕ) (n₀ : ℕ) (post : List ℕ) (e : String)
    (hpre : ∀ n ∈ pre, ∃ a, lookup n = .ok a) (hn : lookup n₀ = .error e) :
    expandNumaNodes lookup (pre ++ n₀ :: post) = .error ⟨n₀, e⟩ := by
  induction pre with
  | nil => simp [expandNumaNodes, hn]
  | cons m pre ih =>
    obtain ⟨a, ha⟩ := hpre m (List.mem_cons_self m pre)
    have ih' := ih fun n hmem => hpre n (List.mem_cons_of_mem m hmem)
    simp [expandNumaNodes, ha, ih']

theorem issuedLookups_error (lookup : ℕ → Except String GROUP_AFFINITY)
    (pre : List ℕ) (n₀ : ℕ) (post : List ℕ) (e : String)
    (hpre : ∀ n ∈ pre, ∃ a, lookup n = .ok a) (hn : lookup n₀ = .error e) :
    issuedLookups lookup (pre ++ n₀ :: post) = pre ++ [n₀] := by
  induction pre with
  | nil => simp [issuedLookups, hn]
  | cons m pre ih =>
    obtain ⟨a, ha⟩ := hpre m (List.mem_cons_self m pre)
    have ih' := ih fun n hmem => hpre n (List.mem_cons_of_mem m hmem)
    simp [issuedLookups, ha, ih']

/-- C5: when the lookup of NUMA node n₀ fails (after the nodes of `pre` and
before those of `post`), the expansion returns the wrapped error of n₀, the
loop stops at n₀ (nodes of `post` are never looked up), and the whole
`preCreateContainer` surfaces that error with the container config left
unmodified. -/
theorem C5_lookup_failure_aborts (lookup : ℕ → Except String GROUP_AFFINITY)
    (pre : List ℕ) (n₀ : ℕ) (post : List ℕ) (e : String)
    (hpre : ∀ n ∈ pre, ∃ a, lookup n = .ok a) (hn : lookup n₀ = .error e) :
    expandNumaNodes lookup (pre ++ n₀ :: post) = .error ⟨n₀, e⟩ ∧
    issuedLookups lookup (pre ++ n₀ :: post) = pre ++ [n₀] ∧
    ∀ (A N : Finset ℕ) (cfg : ContainerConfig), A ≠ ∅ →
      N.sort (· ≤ ·) = pre ++ n₀ :: post →
      preCreateContainer true (some A) (some N) lookup cfg = (.error ⟨n₀, e⟩, cfg) ∧
      preCreateLookups true (some A) (some N) lookup = pre ++ [n₀] ∧
      ∀ m ∈ post, m ∉ preCreateLookups true (some A) (some N) lookup := by
  refine ⟨expandNumaNodes_error lookup pre n₀ post e hpre hn,
    issuedLookups_error lookup pre n₀ post e hpre hn, ?_⟩
  intro A N cfg hA hsort
  have hcard : 0 < N.card := by
    have h1 := Finset.length_sort (α := ℕ) (· ≤ ·) (s := N)
    rw [hsort] at h1
    simp at h1
    omega
  have hexp : expandNumaNodes lookup (N.sort (· ≤ ·)) = .error ⟨n₀, e⟩ := by
    rw [hsort]
    exact expandNumaNodes_error lookup pre n₀ post e hpre hn
  have hiss : issuedLookups lookup (N.sort (· ≤ ·)) = pre ++ [n₀] := by
    rw [hsort]
    exact issuedLookups_error lookup pre n₀ post e hpre hn
  have hlk : preCreateLookups true (some A) (some N) lookup = pre ++ [n₀] := by
    simp only [preCreateLookups, Bool.not_true, Bool.false_eq_true, if_false,
      Option.getD_some, Option.isSome_some]
    rw [if_pos ⟨trivial, hA, trivial, hcard⟩]
    exact hiss
  refine ⟨?_, hlk, ?_⟩
  · simp only [preCreateContainer, Bool.not_true, Bool.false_eq_true, if_false,
      Option.getD_some, Option.isSome_some]
    rw [if_pos ⟨trivial, hA, trivial, hcard⟩, hexp]
  · intro m hm
    rw [hlk]
    have hnd : (pre ++ n₀ :: post).Nodup := by
      rw [← hsort]
      exact Finset.sort_nodup _ _
    simp only [List.nodup_append, List.nodup_cons] at hnd
    intro hcontra
    rcases List.mem_append.mp hcontra with hmp | hmn
    · exact hnd.2.2 hmp (List.mem_cons_of_mem n₀ hm)
    · rw [List.mem_singleton] at hmn
      subst hmn
      exact hnd.2.1.1 hm

/-- C5 witness: nodes [0, 1, 2] with the lookup failing at node 1: the error
names node 1, node 2 is never looked up, and the config is untouched. -/
theorem C5_lookup_failure_aborts_witness :
    expandNumaNodes (fun n => if n = 1 then .error "host query failed" else .ok ⟨0, 1⟩)
        ([0] ++ 1 :: [2]) = .error ⟨1, "host query failed"⟩ ∧
    issuedLookups (fun n => if n = 1 then .error "host query failed" else .ok ⟨0, 1⟩)
        ([0] ++ 1 :: [2]) = [0] ++ [1] ∧
    preCreateContainer true (some {7}) (some {0, 1, 2})
        (fun n => if n = 1 then .error "host query failed" else .ok ⟨0, 1⟩)
        ⟨none⟩ = (.error ⟨1, "host query failed"⟩, ⟨none⟩) := by
  have h := C5_lookup_failure_aborts
    (fun n => if n = 1 then .error "host query failed" else .ok ⟨0, 1⟩)
    [0] 1 [2] "host query failed"
    (by
      intro n hmem
      rw [List.mem_singleton] at hmem
      subst hmem
      exact ⟨⟨0, 1⟩, rfl⟩)
    rfl
  have hsort : ({0, 1, 2} : Finset ℕ).sort (· ≤ ·) = [0] ++ 1 :: [2] := by
    refine sort_eq_of_sorted _ _ ?_ ?_ ?_ <;> decide
  exact ⟨h.1, h.2.1, (h.2.2 {7} {0, 1, 2} ⟨none⟩ (by decide) hsort).1⟩

/-- C9: when neither manager yields a non-empty result, the call succeeds and
the container config is returned exactly as given — the affinity field is
not assigned at all. -/
theorem C9_no_result_leaves_config (cpuManager memoryManager : Option (Finset ℕ))
    (lookup : ℕ → Except String GROUP_AFFINITY) (cfg : ContainerConfig)
    (hcpu : cpuManager.getD ∅ = ∅) (hmem : memoryManager.getD ∅ = ∅) :
    preCreateContainer true cpuManager memoryManager lookup cfg = (.ok (), cfg) := by
  simp only [preCreateContainer, Bool.not_true, Bool.false_eq_true, if_false, hcpu]
  rw [if_neg (by simp), if_neg (by simp), if_neg (by simp)]

/-- C9 witness: both managers present but empty, starting from an unset
affinity field. -/
theorem C9_no_result_leaves_config_witness :
    preCreateContainer true (some ∅) (some ∅) (fun _ => .ok ⟨0, 1⟩) ⟨none⟩ =
      (.ok (), ⟨none⟩) :=
  C9_no_result_leaves_config (some ∅) (some ∅) (fun _ => .ok ⟨0, 1⟩) ⟨none⟩ rfl rfl

/-- C10: whenever the CPU manager is nil or returned an empty set, no NUMA
lookup is issued and the config is returned untouched, even if the memory
manager is enabled with non-empty NUMA nodes: every branch that expands NUMA
nodes or writes affinity is guarded by `allocatedCPUs` being non-empty. -/
theorem C10_empty_cpu_guards_all (cpuManager memoryManager : Option (Finset ℕ))
    (lookup : ℕ → Except String GROUP_AFFINITY) (cfg : ContainerConfig)
    (hcpu : cpuManager.getD ∅ = ∅) :
    preCreateLookups true cpuManager memoryManager lookup = [] ∧
    preCreateContainer true cpuManager memoryManager lookup cfg = (.ok (), cfg) := by
  constructor
  · simp only [preCreateLookups, Bool.not_true, Bool.false_eq_true, if_false, hcpu]
    rw [if_neg (by simp), if_neg (by simp), if_neg (by simp)]
  · simp only [preCreateContainer, Bool.not_true, Bool.false_eq_true, if_false, hcpu]
    rw [if_neg (by simp), if_neg (by simp), if_neg (by simp)]

/-- C10 witness: CPU manager nil, memory manager enabled with NUMA nodes
{0, 1} and a lookup that would succeed — still no lookup, config
untouched. -/
theorem C10_empty_cpu_guards_all_witness :
    preCreateLookups true none (some {0, 1}) (fun _ => .ok ⟨0, 1⟩) = [] ∧
    preCreateContainer true none (some {0, 1}) (fun _ => .ok ⟨0, 1⟩) ⟨none⟩ =
      (.ok (), ⟨none⟩) :=
  C10_empty_cpu_guards_all none (some {0, 1}) (fun _ => .ok ⟨0, 1⟩) ⟨none⟩ rfl

/-- C1: evaluation showing the "only memory manager" case never fires: with
the CPU manager nil and the memory manager reporting NUMA node 0 (whose
lookup would succeed with (group 0, mask 1), flattening to {0}), the code
issues no lookup, writes no affinity and returns success — instead of
pinning to the NUMA-derived union {0} as the spec's case 3 demands. -/
theorem C1_memory_only_branch_unreachable :
    preCreateContainer true none (some {0}) (fun _ => .ok ⟨0, 1⟩) ⟨none⟩ =
      (.ok (), ⟨none⟩) ∧
    preCreateLookups true none (some {0}) (fun _ => .ok ⟨0, 1⟩) = [] ∧
    computeCPUSet [⟨0, 1⟩] = {0} := by
  refine ⟨?_, ?_, by decide⟩
  · simp only [preCreateContainer, Bool.not_true, Bool.false_eq_true, if_false]
    rw [if_neg (by simp), if_neg (by simp), if_neg (by simp)]
  · simp only [preCreateLookups, Bool.not_true, Bool.false_eq_true, if_false]
    rw [if_neg (by simp), if_neg (by simp), if_neg (by simp)]

example : computeCPUSet [⟨0, 0b1010⟩, ⟨1, 0b1001⟩] = {1, 3, 64, 67} := by decide

example : subset {1, 2} {1, 2, 3} = true := by decide

example : subset {1, 4} {1, 2, 3} = false := by decide

example : ({0, 65} : Finset ℕ).sort (· ≤ ·) = [0, 65] := by
  refine sort_eq_of_sorted _ _ ?_ ?_ ?_ <;> decide

example : convertToGroupAffinities {0, 65} = [⟨0, 1⟩, ⟨1, 2⟩] := by
  have h : ({0, 65} : Finset ℕ).sort (· ≤ ·) = [0, 65] := by
    refine sort_eq_of_sorted _ _ ?_ ?_ ?_ <;> decide
  simp [convertToGroupAffinities, h]

example : groupMasks {0, 1, 2, 3, 64, 65, 66, 67} 0 = 0b1111 := by decide

example : groupMasks {0, 1, 2, 3, 64, 65, 66, 67} 1 = 0b1111 := by decide

example : groupMasks {1, 65} 2 = 0 := by decide

end WinAffinity
